import Mathlib

/-!
Shallow embedding of the cherub enforcement engine (src/src/enforcement/ and
src/src/tools/mod.rs): capability tiers, the compiled policy and its matcher,
policy compilation from a TOML document, and the decision algorithm `evaluate`.

External libraries are abstracted at their interface boundary:
  * the `regex` crate's `RegexSetBuilder::build` is a parameter
    `build : RegexBuild` producing either an error string or a compiled
    matcher `String → Bool`; a compiled `RegexSet` retains its pattern list
    (as the real `RegexSet::patterns()` does) together with the matcher;
  * the `toml` crate's syntax parser (text → document tree) is a parameter
    `parseToml : String → Except String Toml`; the serde deserialization of
    the tree into `PolicyFile`/`ToolConfig`/`ActionConfig` — declared in
    src/src/enforcement/policy.rs with `deny_unknown_fields` — is modelled
    concretely below;
  * `serde_json::Value` is modelled by the `Json` tree;
  * `HashMap` iteration is modelled by association lists (iteration order is
    unspecified in the source; list order stands in for it).
-/

namespace Cherub

/-- Capability tiers ordered by privilege level (src/src/enforcement/tier.rs).
Rust derives `Ord` from variant order: Observe < Act < Commit. -/
inductive Tier where
  | Observe
  | Act
  | Commit
deriving DecidableEq

/-- Numeric encoding of the derived `Ord` (variant order). -/
def Tier.toNat : Tier → Nat
  | .Observe => 0
  | .Act => 1
  | .Commit => 2

instance : LT Tier := ⟨fun a b => a.toNat < b.toNat⟩

instance : LE Tier := ⟨fun a b => a.toNat ≤ b.toNat⟩

instance (a b : Tier) : Decidable (a < b) :=
  inferInstanceAs (Decidable (a.toNat < b.toNat))

instance (a b : Tier) : Decidable (a ≤ b) :=
  inferInstanceAs (Decidable (a.toNat ≤ b.toNat))

theorem Tier.lt_iff {a b : Tier} : a < b ↔ a.toNat < b.toNat := Iff.rfl

theorem Tier.le_iff {a b : Tier} : a ≤ b ↔ a.toNat ≤ b.toNat := Iff.rfl

/-- The `{tier:?}` Debug rendering used in error messages. -/
def Tier.reprName : Tier → String
  | .Observe => "Observe"
  | .Act => "Act"
  | .Commit => "Commit"

/-- Error taxonomy (src/src/error.rs). -/
inductive CherubError where
  | NotPermitted
  | ToolExecution (msg : String)
  | Provider (msg : String)
  | InvalidInvocation (msg : String)
  | PolicyLoad (msg : String)
  | PolicyValidation (msg : String)
deriving DecidableEq

/-- A compiled `regex::RegexSet`: the pattern list it was built from together
with its matching function. -/
structure RegexSet where
  patterns : List String
  isMatch : String → Bool

/-- Interface of `regex::RegexSetBuilder::build`: from a pattern list, either a
compile error or a matcher. -/
def RegexBuild : Type := List String → Except String (String → Bool)

/-- One tier's entry in a compiled tool (struct CompiledTier, policy.rs). -/
structure CompiledTier where
  tier : Tier
  patterns : RegexSet

/-- struct CompiledTool, policy.rs. `tiers` is ordered Commit, Act, Observe
(highest privilege first) by construction in `compile_tool`. -/
structure CompiledTool where
  name : String
  enabled : Bool
  tiers : List CompiledTier

/-- struct Policy, policy.rs. -/
structure Policy where
  tools : List CompiledTool

/-- `CompiledTool::match_tier` (policy.rs): first tier in stored order whose
pattern set matches the command. -/
def CompiledTool.match_tier (t : CompiledTool) (command : String) : Option Tier :=
  (t.tiers.find? fun ct => ct.patterns.isMatch command).map fun ct => ct.tier

/-- `Policy::find_tool` (policy.rs): exact name match. -/
def Policy.find_tool (p : Policy) (name : String) : Option CompiledTool :=
  p.tools.find? fun t => t.name == name

/-- struct ActionConfig (policy.rs). `TierValue` maps 1:1 onto `Tier`
(`impl From<TierValue> for Tier` is the evident bijection), so the tier is
stored directly. -/
structure ActionConfig where
  tier : Tier
  patterns : List String

/-- struct ToolConfig (policy.rs); `actions` is a map name → ActionConfig. -/
structure ToolConfig where
  enabled : Bool
  actions : List (String × ActionConfig)

/-- struct PolicyFile (policy.rs); `tools` is a map name → ToolConfig. -/
structure PolicyFile where
  tools : List (String × ToolConfig)

/-- Message of the empty-pattern-list validation error (compile_tool). -/
def emptyPatternsMsg (name action : String) : String :=
  "tool '" ++ name ++ "', action '" ++ action ++ "': patterns must not be empty"

/-- Message of the regex-compilation validation error (compile_tool); it names
the offending tool and tier, mirroring format!("tool '{name}', tier '{tier:?}': {e}"). -/
def regexErrMsg (name : String) (t : Tier) (e : String) : String :=
  "tool '" ++ name ++ "', tier '" ++ t.reprName ++ "': " ++ e

/-- The first loop of `compile_tool`: reject any action whose pattern list is
empty (the grouping side effect is reconstructed by `tierPatterns`). -/
def checkActions (name : String) : List (String × ActionConfig) → Except CherubError Unit
  | [] => .ok ()
  | (an, a) :: rest =>
    if a.patterns.isEmpty then .error (.PolicyValidation (emptyPatternsMsg name an))
    else checkActions name rest

/-- The pattern list accumulated for tier `t` by the grouping loop of
`compile_tool` (`by_tier`): concatenation of the pattern lists of the actions
declared at `t`, in iteration order. -/
def tierPatterns (actions : List (String × ActionConfig)) (t : Tier) : List String :=
  actions.foldr (fun a acc => if a.2.tier = t then a.2.patterns ++ acc else acc) []

/-- Whether the `by_tier` map has an entry for `t`: some action declares `t`. -/
def hasTier (actions : List (String × ActionConfig)) (t : Tier) : Bool :=
  actions.any fun a => decide (a.2.tier = t)

/-- The second loop of `compile_tool`: walk the given tier order, and for each
tier with an entry compile its pattern list into a RegexSet. -/
def compileTiers (build : RegexBuild) (name : String)
    (actions : List (String × ActionConfig)) :
    List Tier → Except CherubError (List CompiledTier)
  | [] => .ok []
  | t :: rest =>
    if hasTier actions t then
      match build (tierPatterns actions t) with
      | .error e => .error (.PolicyValidation (regexErrMsg name t e))
      | .ok m =>
        match compileTiers build name actions rest with
        | .error e => .error e
        | .ok ts => .ok (⟨t, ⟨tierPatterns actions t, m⟩⟩ :: ts)
    else compileTiers build name actions rest

/-- The fixed descending tier order of the compilation loop
(`[Tier::Commit, Tier::Act, Tier::Observe]`). -/
def descTiers : List Tier := [.Commit, .Act, .Observe]

/-- `compile_tool` (policy.rs, lines 136-184). -/
def compile_tool (build : RegexBuild) (name : String) (config : ToolConfig) :
    Except CherubError CompiledTool :=
  match checkActions name config.actions with
  | .error e => .error e
  | .ok _ =>
    match compileTiers build name config.actions descTiers with
    | .error e => .error e
    | .ok ts => .ok ⟨name, config.enabled, ts⟩

/-- A parsed TOML document tree (the output of the toml crate's syntax
parser, before serde deserialization). -/
inductive Toml where
  | str (s : String)
  | bool (b : Bool)
  | arr (elems : List Toml)
  | table (entries : List (String × Toml))

/-- Key lookup in a TOML table (keys are unique in a well-formed document). -/
def lookupKey (entries : List (String × Toml)) (k : String) : Option Toml :=
  (entries.find? fun kv => kv.1 == k).map fun kv => kv.2

/-- Fail-fast map over a list in `Except` (serde deserializes sequences and
maps element by element, stopping at the first error). -/
def mapE {ε α β : Type} (f : α → Except ε β) : List α → Except ε (List β)
  | [] => .ok []
  | x :: xs =>
    match f x with
    | .error e => .error e
    | .ok y =>
      match mapE f xs with
      | .error e => .error e
      | .ok ys => .ok (y :: ys)

/-- serde's `deny_unknown_fields`: every key of the table must be a declared
field of the struct, otherwise deserialization fails. -/
def checkKeys (allowed : List String) (entries : List (String × Toml)) :
    Except String Unit :=
  match entries.find? (fun kv => !(allowed.contains kv.1)) with
  | some kv => .error ("unknown field `" ++ kv.1 ++ "`")
  | none => .ok ()

/-- Deserialize a TOML value as a string. -/
def Toml.asStr : Toml → Except String String
  | .str s => .ok s
  | _ => .error "expected string"

/-- Modelled from the spec and the `TierValue` declaration (policy.rs):
serde deserialization of `TierValue` with `rename_all = "lowercase"` — the
derived deserializer itself is generated code not present in src/. Tier
strings are case-sensitive lowercase; any other value is an error. -/
def tierFromToml : Toml → Except String Tier
  | .str "observe" => .ok .Observe
  | .str "act" => .ok .Act
  | .str "commit" => .ok .Commit
  | _ => .error "unknown tier value"

/-- Modelled from the spec and the `ActionConfig` declaration (policy.rs):
serde deserialization with `deny_unknown_fields`; fields `tier` and
`patterns` are required. -/
def actionFromToml : Toml → Except String ActionConfig
  | .table entries =>
    (match checkKeys ["tier", "patterns"] entries with
     | .error e => .error e
     | .ok _ =>
       match lookupKey entries "tier" with
       | none => .error "missing field `tier`"
       | some tv =>
         match tierFromToml tv with
         | .error e => .error e
         | .ok t =>
           match lookupKey entries "patterns" with
           | none => .error "missing field `patterns`"
           | some (.arr xs) =>
             (match mapE Toml.asStr xs with
              | .error e => .error e
              | .ok ps => .ok ⟨t, ps⟩)
           | some _ => .error "expected array for `patterns`")
  | _ => .error "expected table for action"

/-- Modelled from the spec and the `ToolConfig` declaration (policy.rs):
serde deserialization with `deny_unknown_fields`; `enabled` is required,
`actions` defaults to the empty map. -/
def toolFromToml : Toml → Except String ToolConfig
  | .table entries =>
    (match checkKeys ["enabled", "actions"] entries with
     | .error e => .error e
     | .ok _ =>
       match lookupKey entries "enabled" with
       | none => .error "missing field `enabled`"
       | some (.bool b) =>
         (match lookupKey entries "actions" with
          | none => .ok ⟨b, []⟩
          | some (.table as) =>
            (match mapE (fun kv : String × Toml =>
                match actionFromToml kv.2 with
                | .error e => .error e
                | .ok a => .ok (kv.1, a)) as with
             | .error e => .error e
             | .ok acts => .ok ⟨b, acts⟩)
          | some _ => .error "expected table for `actions`")
       | some _ => .error "expected bool for `enabled`")
  | _ => .error "expected table for tool"

/-- Modelled from the spec and the `PolicyFile` declaration (policy.rs):
serde deserialization with `deny_unknown_fields`; `tools` defaults to the
empty map. -/
def policyFileFromToml : Toml → Except String PolicyFile
  | .table entries =>
    (match checkKeys ["tools"] entries with
     | .error e => .error e
     | .ok _ =>
       match lookupKey entries "tools" with
       | none => .ok ⟨[]⟩
       | some (.table ts) =>
         (match mapE (fun kv : String × Toml =>
             match toolFromToml kv.2 with
             | .error e => .error e
             | .ok c => .ok (kv.1, c)) ts with
          | .error e => .error e
          | .ok tools => .ok ⟨tools⟩)
       | some _ => .error "expected table for `tools`")
  | _ => .error "expected table at top level"

/-- `toml::from_str::<PolicyFile>`: syntax parse (abstract) followed by the
modelled serde deserialization; both failure modes are one error channel. -/
def tomlFromStr (parseToml : String → Except String Toml) (content : String) :
    Except String PolicyFile :=
  match parseToml content with
  | .error e => .error e
  | .ok doc => policyFileFromToml doc

/-- `Policy::from_str` (policy.rs, lines 80-96): deserialize the document
(errors become PolicyLoad), then compile every tool entry. Note: no size
check happens here. -/
def Policy.from_str (parseToml : String → Except String Toml) (build : RegexBuild)
    (content : String) : Except CherubError Policy :=
  match tomlFromStr parseToml content with
  | .error e => .error (.PolicyLoad e)
  | .ok file =>
    match mapE (fun nc : String × ToolConfig => compile_tool build nc.1 nc.2) file.tools with
    | .error e => .error e
    | .ok tools => .ok ⟨tools⟩

/-- 64 KiB cap (policy.rs, MAX_POLICY_FILE_SIZE). -/
def MAX_POLICY_FILE_SIZE : Nat := 64 * 1024

/-- `Policy::load` (policy.rs, lines 100-114). The filesystem is abstracted:
`metadataLen` is the size reported by `fs::metadata` (`none` = unreadable),
`content` the outcome of `fs::read_to_string`. The size gate runs before the
content is consulted. -/
def Policy.load (parseToml : String → Except String Toml) (build : RegexBuild)
    (metadataLen : Option Nat) (content : Option String) : Except CherubError Policy :=
  match metadataLen with
  | none => .error (.PolicyLoad "cannot read metadata")
  | some len =>
    if len > MAX_POLICY_FILE_SIZE then
      .error (.PolicyLoad ("policy file exceeds " ++ toString MAX_POLICY_FILE_SIZE ++ " byte limit"))
    else
      match content with
      | none => .error (.PolicyLoad "cannot read file")
      | some c => Policy.from_str parseToml build c

/-- `serde_json::Value` (the invocation parameter bag). -/
inductive Json where
  | null
  | bool (b : Bool)
  | num (n : Int)
  | str (s : String)
  | arr (elems : List Json)
  | obj (entries : List (String × Json))

/-- `Value::get(key)`: key lookup on an object, `none` on any other variant. -/
def Json.get? (j : Json) (key : String) : Option Json :=
  match j with
  | .obj entries => (entries.find? fun kv => kv.1 == key).map fun kv => kv.2
  | _ => none

/-- `Value::as_str()`. -/
def Json.asStr? : Json → Option String
  | .str s => some s
  | _ => none

/-- Typestate tags of a tool invocation (src/src/tools/mod.rs). -/
inductive InvState where
  | Proposed
  | Evaluated

/-- `ToolInvocation<State>` (src/src/tools/mod.rs): tool name, action name,
parameter bag, with a phantom lifecycle tag. -/
structure ToolInvocation (State : InvState) where
  tool : String
  action : String
  params : Json

/-- `ToolInvocation::transition` (tools/mod.rs, lines 37-44): crate-private
move from Proposed to Evaluated, fields carried over unchanged. -/
def ToolInvocation.transition (i : ToolInvocation .Proposed) :
    ToolInvocation .Evaluated :=
  ⟨i.tool, i.action, i.params⟩

/-- `CapabilityToken` (src/src/enforcement/capability.rs): carries the tier it
was issued at. (The sealing/affinity of the Rust type is a visibility and
move-semantics property, not part of the value model.) -/
structure CapabilityToken where
  tier : Tier
deriving DecidableEq

/-- `Decision` (src/src/enforcement/mod.rs). -/
inductive Decision where
  | Allow (token : CapabilityToken)
  | Reject
  | Escalate
deriving DecidableEq

/-- `extract_command` (enforcement/mod.rs, lines 42-48): `params["command"]`
as a non-empty string. -/
def extract_command (params : Json) : Option String :=
  ((params.get? "command").bind Json.asStr?).filter fun s => !s.isEmpty

/-- `evaluate` (enforcement/mod.rs, lines 22-40): classify a proposed
invocation against the policy; always returns the transitioned invocation
together with the decision. -/
def evaluate (proposal : ToolInvocation .Proposed) (policy : Policy) :
    ToolInvocation .Evaluated × Decision :=
  let decision :=
    match extract_command proposal.params with
    | none => Decision.Reject
    | some command =>
      match policy.find_tool proposal.tool with
      | none => Decision.Reject
      | some tool =>
        if !tool.enabled then Decision.Reject
        else
          match tool.match_tier command with
          | some Tier.Commit => Decision.Escalate
          | some tier => Decision.Allow ⟨tier⟩
          | none => Decision.Reject
  (proposal.transition, decision)

/-! ### Schema-conformance checkers (used to state the unknown-key claim) -/

/-- All keys of a table are declared fields. -/
def keysAllowed (allowed : List String) (entries : List (String × Toml)) : Bool :=
  entries.all fun kv => allowed.contains kv.1

/-- An action entry uses only the keys `tier` and `patterns`. -/
def actionKeysOk : Toml → Bool
  | .table entries => keysAllowed ["tier", "patterns"] entries
  | _ => true

/-- A tool entry uses only the keys `enabled` and `actions`, and each of its
action entries conforms. -/
def toolKeysOk : Toml → Bool
  | .table entries =>
    keysAllowed ["enabled", "actions"] entries &&
    (match lookupKey entries "actions" with
     | some (.table as) => as.all fun kv => actionKeysOk kv.2
     | _ => true)
  | _ => true

/-- A policy document uses only the key `tools` at top level, and each of its
tool entries conforms. -/
def docKeysOk : Toml → Bool
  | .table entries =>
    keysAllowed ["tools"] entries &&
    (match lookupKey entries "tools" with
     | some (.table ts) => ts.all fun kv => toolKeysOk kv.2
     | _ => true)
  | _ => true

/-! ### Concrete instances used by the witnesses -/

/-- A concrete regex engine for witnesses: a pattern matches a command when
they are equal (a stand-in for an always-successful compilation). -/
def buildW : RegexBuild := fun ps => .ok fun s => ps.contains s

/-- A concrete regex engine for witnesses whose compilation fails on the
pattern `[invalid` (a stand-in for a malformed regular expression). -/
def buildBad : RegexBuild := fun ps =>
  if ps.contains "[invalid" then .error "regex parse error" else .ok fun _ => false

/-- A tool configuration whose Observe and Commit actions share a pattern. -/
def configW : ToolConfig :=
  ⟨true, [("read", ⟨.Observe, ["sudo ls"]⟩), ("destructive", ⟨.Commit, ["sudo ls"]⟩)]⟩

/-- The compiled form of `configW` under `buildW`. -/
def toolW : CompiledTool :=
  match compile_tool buildW "bash" configW with
  | .ok t => t
  | .error _ => ⟨"", false, []⟩

/-- A one-tool policy for the evaluation witnesses. -/
def polW : Policy := ⟨[toolW]⟩

/-- A configuration with a malformed pattern at the Observe tier. -/
def configBad : ToolConfig := ⟨true, [("read", ⟨.Observe, ["[invalid"]⟩)]⟩

/-- A configuration with an action declaring an empty pattern list. -/
def configEmpty : ToolConfig := ⟨true, [("read", ⟨.Observe, []⟩)]⟩

/-- A document whose top-level table has the unknown key `toolz`. -/
def docBadKey : Toml := .table [("toolz", .bool true)]

/-- A policy document larger than 64 KiB that is valid TOML: 65537 bytes of
blank lines (the toml syntax parser accepts a document of blank lines of any
length, yielding the empty table). -/
def bigContent : String := String.mk (List.replicate 65537 '\n')

/-! ### Structural lemmas about compilation -/

/-- The tier order used by the compilation loop is strictly descending. -/
theorem descTiers_sorted : List.Pairwise (fun a b : Tier => b < a) descTiers := by
  refine List.Pairwise.cons ?_ (List.Pairwise.cons ?_ (List.Pairwise.cons ?_ List.Pairwise.nil))
  · intro b hb
    cases hb with
    | head => exact Nat.lt_of_sub_eq_succ rfl
    | tail _ hb =>
      cases hb with
      | head => exact Nat.lt_of_sub_eq_succ rfl
      | tail _ hb => cases hb
  · intro b hb
    cases hb with
    | head => exact Nat.lt_of_sub_eq_succ rfl
    | tail _ hb => cases hb
  · intro b hb
    cases hb

/-- What a successful `compileTiers` run guarantees: the produced tier
sequence is a sublist of the requested order, and each entry holds the merged
pattern list of a tier some action declared. -/
theorem compileTiers_ok_spec (build : RegexBuild) (name : String)
    (actions : List (String × ActionConfig)) :
    ∀ (input : List Tier) (ts : List CompiledTier),
    compileTiers build name actions input = .ok ts →
    (ts.map (fun ct => ct.tier)).Sublist input ∧
    ∀ ct ∈ ts, ct.patterns.patterns = tierPatterns actions ct.tier ∧
      hasTier actions ct.tier = true := by
  intro input
  induction input with
  | nil =>
    intro ts h
    simp only [compileTiers, Except.ok.injEq] at h
    subst h
    exact ⟨List.Sublist.slnil, by intro ct hct; cases hct⟩
  | cons t rest ih =>
    intro ts h
    simp only [compileTiers] at h
    by_cases hh : hasTier actions t = true
    · rw [if_pos hh] at h
      cases hb : build (tierPatterns actions t) with
      | error e => rw [hb] at h; cases h
      | ok m =>
        rw [hb] at h
        cases hr : compileTiers build name actions rest with
        | error e => rw [hr] at h; cases h
        | ok ts' =>
          rw [hr] at h
          simp only [Except.ok.injEq] at h
          subst h
          obtain ⟨hsub, hmem⟩ := ih ts' hr
          refine ⟨List.Sublist.cons₂ t hsub, ?_⟩
          intro ct hct
          cases hct with
          | head => exact ⟨rfl, hh⟩
          | tail _ hct => exact hmem ct hct
    · rw [if_neg hh] at h
      obtain ⟨hsub, hmem⟩ := ih ts h
      exact ⟨List.Sublist.cons t hsub, hmem⟩

/-- In a list of compiled tiers sorted strictly descending by privilege, the
first matching entry has the maximal tier among all matching entries. -/
theorem find?_first_max (cmd : String) :
    ∀ (l : List CompiledTier),
    l.Pairwise (fun a b => b.tier < a.tier) →
    ∀ ct, l.find? (fun x => x.patterns.isMatch cmd) = some ct →
    ∀ x ∈ l, x.patterns.isMatch cmd = true → x.tier ≤ ct.tier := by
  intro l
  induction l with
  | nil => intro _ ct h; cases h
  | cons a rest ih =>
    intro hp ct hfind x hx hmatch
    obtain ⟨ha, hrest⟩ := List.pairwise_cons.mp hp
    by_cases hm : a.patterns.isMatch cmd = true
    · have hstep : List.find? (fun x => x.patterns.isMatch cmd) (a :: rest) = some a := by
        simp [List.find?, hm]
      rw [hstep] at hfind
      injection hfind with h
      subst h
      cases List.mem_cons.mp hx with
      | inl h => subst h; exact Tier.le_iff.mpr (Nat.le_refl _)
      | inr h => exact Tier.le_iff.mpr (Nat.le_of_lt (Tier.lt_iff.mp (ha x h)))
    · have hstep : List.find? (fun x => x.patterns.isMatch cmd) (a :: rest) =
          List.find? (fun x => x.patterns.isMatch cmd) rest := by
        simp [List.find?, hm]
      rw [hstep] at hfind
      cases List.mem_cons.mp hx with
      | inl h => subst h; exact absurd hmatch hm
      | inr h => exact ih hrest ct hfind x h hmatch

/-- A tool produced by `compile_tool` has its tier entries sorted strictly
descending by privilege (Commit, Act, Observe). -/
theorem compile_tool_sorted (build : RegexBuild) (name : String)
    (config : ToolConfig) (tool : CompiledTool)
    (hc : compile_tool build name config = .ok tool) :
    tool.tiers.Pairwise (fun a b => b.tier < a.tier) := by
  unfold compile_tool at hc
  cases hca : checkActions name config.actions with
  | error e => rw [hca] at hc; cases hc
  | ok u =>
    rw [hca] at hc
    cases hct : compileTiers build name config.actions descTiers with
    | error e => rw [hct] at hc; cases hc
    | ok ts =>
      rw [hct] at hc
      simp only [Except.ok.injEq] at hc
      subst hc
      have hsub := (compileTiers_ok_spec build name config.actions descTiers ts hct).1
      have hpw := List.Pairwise.sublist hsub descTiers_sorted
      exact List.pairwise_map.mp hpw

/-- C1: for every compiled tool and every command, `match_tier` returns
`none` exactly when no tier's pattern set matches, and when it returns a
tier, that tier is one whose pattern set matches and is an upper bound (under
Observe < Act < Commit) of every matching tier — the highest-privilege match
wins. -/
theorem c1_match_tier_max (build : RegexBuild) (name : String) (config : ToolConfig)
    (tool : CompiledTool) (cmd : String)
    (hc : compile_tool build name config = .ok tool) :
    (tool.match_tier cmd = none ↔
      ∀ ct ∈ tool.tiers, ¬ct.patterns.isMatch cmd = true) ∧
    ∀ t, tool.match_tier cmd = some t →
      (∃ ct ∈ tool.tiers, ct.tier = t ∧ ct.patterns.isMatch cmd = true) ∧
      ∀ ct ∈ tool.tiers, ct.patterns.isMatch cmd = true → ct.tier ≤ t := by
  have hsorted := compile_tool_sorted build name config tool hc
  constructor
  · simp only [CompiledTool.match_tier, Option.map_eq_none', List.find?_eq_none]
  · intro t hm
    simp only [CompiledTool.match_tier, Option.map_eq_some'] at hm
    obtain ⟨ct, hfind, htier⟩ := hm
    subst htier
    have hpa := List.find?_some hfind
    refine ⟨⟨ct, List.mem_of_find?_eq_some hfind, rfl, hpa⟩, ?_⟩
    intro x hx hmatch
    exact find?_first_max cmd tool.tiers hsorted ct hfind x hx hmatch

/-- C2: with the tool present and enabled, a Commit-tier match always yields
Escalate (never Allow), and a match at a tier strictly below Commit yields
Allow carrying a token of exactly that tier. -/
theorem c2_commit_escalates (p : ToolInvocation .Proposed) (policy : Policy)
    (cmd : String) (tool : CompiledTool)
    (hcmd : extract_command p.params = some cmd)
    (htool : policy.find_tool p.tool = some tool)
    (hen : tool.enabled = true) :
    (tool.match_tier cmd = some Tier.Commit →
      (evaluate p policy).2 = Decision.Escalate) ∧
    ∀ t, t < Tier.Commit → tool.match_tier cmd = some t →
      (evaluate p policy).2 = Decision.Allow ⟨t⟩ := by
  constructor
  · intro hm
    simp [evaluate, hcmd, htool, hen, hm]
  · intro t ht hm
    cases t with
    | Observe => simp [evaluate, hcmd, htool, hen, hm]
    | Act => simp [evaluate, hcmd, htool, hen, hm]
    | Commit => exact absurd ht (by decide)

/-- C3: `evaluate` decides Reject exactly when the command is missing or not
a string, or is the empty string, or the tool is unknown, or the tool is
disabled, or no tier matches; being a total function into `Decision`, it
returns these as decision values and never raises an error. -/
theorem c3_reject_iff (p : ToolInvocation .Proposed) (policy : Policy) :
    (evaluate p policy).2 = Decision.Reject ↔
      ((p.params.get? "command").bind Json.asStr? = none ∨
       (∃ s, (p.params.get? "command").bind Json.asStr? = some s ∧ s.isEmpty = true) ∨
       policy.find_tool p.tool = none ∨
       (∃ tool, policy.find_tool p.tool = some tool ∧ tool.enabled = false) ∨
       (∃ cmd tool, extract_command p.params = some cmd ∧
         policy.find_tool p.tool = some tool ∧ tool.enabled = true ∧
         tool.match_tier cmd = none)) := by
  cases ho : (p.params.get? "command").bind Json.asStr? with
  | none =>
    have hec : extract_command p.params = none := by
      simp [extract_command, ho]
    constructor
    · intro _; exact Or.inl rfl
    · intro _; simp [evaluate, hec]
  | some s =>
    cases hs : s.isEmpty with
    | true =>
      have hec : extract_command p.params = none := by
        simp [extract_command, ho, Option.filter, hs]
      constructor
      · intro _; exact Or.inr (Or.inl ⟨s, rfl, hs⟩)
      · intro _; simp [evaluate, hec]
    | false =>
      have hec : extract_command p.params = some s := by
        simp [extract_command, ho, Option.filter, hs]
      cases hft : policy.find_tool p.tool with
      | none =>
        constructor
        · intro _; exact Or.inr (Or.inr (Or.inl rfl))
        · intro _; simp [evaluate, hec, hft]
      | some tool =>
        cases hen : tool.enabled with
        | false =>
          constructor
          · intro _; exact Or.inr (Or.inr (Or.inr (Or.inl ⟨tool, rfl, hen⟩)))
          · intro _; simp [evaluate, hec, hft, hen]
        | true =>
          cases hmt : tool.match_tier s with
          | none =>
            constructor
            · intro _
              exact Or.inr (Or.inr (Or.inr (Or.inr ⟨s, tool, hec, rfl, hen, hmt⟩)))
            · intro _; simp [evaluate, hec, hft, hen, hmt]
          | some t =>
            constructor
            · intro h
              exfalso
              cases t <;> simp [evaluate, hec, hft, hen, hmt] at h
            · intro h
              exfalso
              rcases h with h | ⟨s', h, hs'⟩ | h | ⟨tool', h, hen'⟩ |
                ⟨cmd, tool', hc, h, hen', hmt'⟩
              · cases h
              · injection h with h
                subst h
                rw [hs] at hs'
                cases hs'
              · cases h
              · injection h with h
                subst h
                rw [hen] at hen'
                cases hen'
              · rw [hec] at hc
                injection hc with hc
                subst hc
                injection h with h
                subst h
                rw [hmt] at hmt'
                cases hmt'

/-- C5: `evaluate` is deterministic — it is a pure function of the
invocation's fields and the policy, so equal inputs give identical results
(same decision variant, same token tier). -/
theorem c5_deterministic (p q : ToolInvocation .Proposed) (pol : Policy)
    (ht : p.tool = q.tool) (ha : p.action = q.action) (hp : p.params = q.params) :
    evaluate p pol = evaluate q pol := by
  have hpq : p = q := by
    obtain ⟨pt, pa, pp⟩ := p
    obtain ⟨qt, qa, qp⟩ := q
    simp_all
  rw [hpq]

/-- C6: `evaluate` always returns the invocation transitioned to the
Evaluated state (the first component has type `ToolInvocation .Evaluated`),
whatever the decision, and its tool name, action name and parameter bag are
unchanged from the proposal's. -/
theorem c6_always_evaluated (p : ToolInvocation .Proposed) (pol : Policy) :
    (evaluate p pol).1 = p.transition ∧
    (evaluate p pol).1.tool = p.tool ∧
    (evaluate p pol).1.action = p.action ∧
    (evaluate p pol).1.params = p.params :=
  ⟨rfl, rfl, rfl, rfl⟩

/-- C10: the decision never depends on the action name — two proposals with
the same tool name and parameter bag but different action names receive
identical decisions. -/
theorem c10_action_independent (p q : ToolInvocation .Proposed) (pol : Policy)
    (ht : p.tool = q.tool) (hp : p.params = q.params) :
    (evaluate p pol).2 = (evaluate q pol).2 := by
  obtain ⟨pt, pa, pp⟩ := p
  obtain ⟨qt, qa, qp⟩ := q
  replace ht : pt = qt := ht
  replace hp : pp = qp := hp
  subst ht
  subst hp
  rfl

/-! ### Error-path lemmas for compilation -/

/-- Every tier occurs in the fixed compilation order. -/
theorem tier_mem_descTiers (t : Tier) : t ∈ descTiers := by
  cases t <;> simp [descTiers]

/-- `checkActions` only fails with the empty-pattern-list validation error. -/
theorem checkActions_error_shape (name : String) :
    ∀ (actions : List (String × ActionConfig)) (e : CherubError),
    checkActions name actions = .error e →
    ∃ an, e = .PolicyValidation (emptyPatternsMsg name an) := by
  intro actions
  induction actions with
  | nil => intro e h; cases h
  | cons a rest ih =>
    intro e h
    simp only [checkActions] at h
    by_cases he : a.2.patterns.isEmpty = true
    · rw [if_pos he] at h
      injection h with h
      exact ⟨a.1, h.symm⟩
    · rw [if_neg he] at h
      exact ih e h

/-- `checkActions` succeeds when no action has an empty pattern list. -/
theorem checkActions_ok_of (name : String) :
    ∀ (actions : List (String × ActionConfig)),
    (∀ a ∈ actions, a.2.patterns ≠ []) →
    checkActions name actions = .ok () := by
  intro actions
  induction actions with
  | nil => intro _; rfl
  | cons a rest ih =>
    intro hall
    have hne : a.2.patterns ≠ [] := hall a (List.mem_cons_self a rest)
    have he : a.2.patterns.isEmpty = false := by
      cases hpat : a.2.patterns with
      | nil => exact absurd hpat hne
      | cons x xs => rfl
    simp only [checkActions, he]
    exact ih fun b hb => hall b (List.mem_cons_of_mem a hb)

/-- If `checkActions` succeeds, every action's pattern list is non-empty. -/
theorem checkActions_all_ne (name : String) :
    ∀ (actions : List (String × ActionConfig)) (u : Unit),
    checkActions name actions = .ok u →
    ∀ a ∈ actions, a.2.patterns ≠ [] := by
  intro actions
  induction actions with
  | nil => intro u _ a ha; cases ha
  | cons x rest ih =>
    intro u h a ha
    simp only [checkActions] at h
    by_cases he : x.2.patterns.isEmpty = true
    · rw [if_pos he] at h; cases h
    · rw [if_neg he] at h
      cases List.mem_cons.mp ha with
      | inl hh =>
        subst hh
        intro hnil
        rw [hnil] at he
        exact he rfl
      | inr hh => exact ih u h a hh

/-- An action declaring an empty pattern list makes `checkActions` fail with
the named validation error. -/
theorem checkActions_error_of_empty (name : String) :
    ∀ (actions : List (String × ActionConfig)),
    (∃ a ∈ actions, a.2.patterns = []) →
    ∃ an, checkActions name actions =
      .error (.PolicyValidation (emptyPatternsMsg name an)) := by
  intro actions
  induction actions with
  | nil => intro ⟨a, ha, _⟩; cases ha
  | cons x rest ih =>
    intro ⟨a, ha, hae⟩
    by_cases he : x.2.patterns.isEmpty = true
    · exact ⟨x.1, by simp only [checkActions, he, if_pos]⟩
    · cases List.mem_cons.mp ha with
      | inl hh =>
        subst hh
        rw [hae] at he
        exact absurd rfl he
      | inr hh =>
        obtain ⟨an, hrest⟩ := ih ⟨a, hh, hae⟩
        refine ⟨an, ?_⟩
        simp only [checkActions, he, if_neg, Bool.false_eq_true, not_false_iff]
        exact hrest

/-- The merged pattern list of a declared tier is non-empty when every
action's pattern list is. -/
theorem tierPatterns_ne_nil (t : Tier) :
    ∀ (actions : List (String × ActionConfig)),
    (∀ a ∈ actions, a.2.patterns ≠ []) →
    hasTier actions t = true →
    tierPatterns actions t ≠ [] := by
  intro actions
  induction actions with
  | nil => intro _ h; cases h
  | cons x rest ih =>
    intro hall ht
    simp only [tierPatterns, List.foldr_cons]
    by_cases hx : x.2.tier = t
    · rw [if_pos hx]
      have hne := hall x (List.mem_cons_self x rest)
      cases hpat : x.2.patterns with
      | nil => exact absurd hpat hne
      | cons y ys => simp
    · rw [if_neg hx]
      have ht' : hasTier rest t = true := by
        simp only [hasTier, List.any_cons] at ht
        rcases Bool.or_eq_true_iff.mp ht with h | h
        · exact absurd (of_decide_eq_true h) hx
        · exact h
      exact ih (fun b hb => hall b (List.mem_cons_of_mem x hb)) ht'

/-- `compileTiers` only fails with the tool-and-tier-naming validation
error produced for a regex compilation failure. -/
theorem compileTiers_error_shape (build : RegexBuild) (name : String)
    (actions : List (String × ActionConfig)) :
    ∀ (input : List Tier) (e : CherubError),
    compileTiers build name actions input = .error e →
    ∃ t msg, t ∈ input ∧ e = .PolicyValidation (regexErrMsg name t msg) := by
  intro input
  induction input with
  | nil => intro e h; cases h
  | cons t rest ih =>
    intro e h
    simp only [compileTiers] at h
    by_cases hh : hasTier actions t = true
    · rw [if_pos hh] at h
      cases hb : build (tierPatterns actions t) with
      | error eb =>
        rw [hb] at h
        injection h with h
        exact ⟨t, eb, List.mem_cons_self t rest, h.symm⟩
      | ok m =>
        rw [hb] at h
        cases hr : compileTiers build name actions rest with
        | error e' =>
          rw [hr] at h
          injection h with h
          subst h
          obtain ⟨t', msg, hmem, hshape⟩ := ih e' hr
          exact ⟨t', msg, List.mem_cons_of_mem t hmem, hshape⟩
        | ok ts => rw [hr] at h; cases h
    · rw [if_neg hh] at h
      obtain ⟨t', msg, hmem, hshape⟩ := ih e h
      exact ⟨t', msg, List.mem_cons_of_mem t hmem, hshape⟩

/-- If the regex engine fails on the merged pattern list of a declared tier,
`compileTiers` fails. -/
theorem compileTiers_error_of_build (build : RegexBuild) (name : String)
    (actions : List (String × ActionConfig)) (t : Tier) (eb : String) :
    ∀ (input : List Tier), t ∈ input →
    hasTier actions t = true →
    build (tierPatterns actions t) = .error eb →
    ∃ e, compileTiers build name actions input = .error e := by
  intro input
  induction input with
  | nil => intro hmem; cases hmem
  | cons t' rest ih =>
    intro hmem ht hb
    simp only [compileTiers]
    by_cases hh : hasTier actions t' = true
    · rw [if_pos hh]
      cases hb' : build (tierPatterns actions t') with
      | error e => exact ⟨.PolicyValidation (regexErrMsg name t' e), rfl⟩
      | ok m =>
        have hmem' : t ∈ rest := by
          cases List.mem_cons.mp hmem with
          | inl hh' => subst hh'; rw [hb] at hb'; cases hb'
          | inr hh' => exact hh'
        obtain ⟨e, hrec⟩ := ih hmem' ht hb
        rw [hrec]
        exact ⟨e, rfl⟩
    · rw [if_neg hh]
      have hmem' : t ∈ rest := by
        cases List.mem_cons.mp hmem with
        | inl hh' => subst hh'; exact absurd ht hh
        | inr hh' => exact hh'
      exact ih hmem' ht hb

/-- C7: a malformed regular expression in a declared tier's merged pattern
list makes `compile_tool` fail with a PolicyValidation error; every
compilation error issued for a regex failure is a PolicyValidation whose
message literally embeds the offending tool name and tier
(`regexErrMsg name t msg`); document syntax errors instead surface through
`Policy.from_str` as a distinct PolicyLoad error. -/
theorem c7_regex_error_validation (build : RegexBuild) (name : String)
    (config : ToolConfig) :
    ((∃ t e, hasTier config.actions t = true ∧
        build (tierPatterns config.actions t) = .error e) →
      ∃ msg, compile_tool build name config = .error (.PolicyValidation msg)) ∧
    (∀ e, compile_tool build name config = .error e →
      (∀ a ∈ config.actions, a.2.patterns ≠ []) →
      ∃ t msg, e = .PolicyValidation (regexErrMsg name t msg)) ∧
    (∀ (parseToml : String → Except String Toml) (content : String) (e : String),
      parseToml content = .error e →
      Policy.from_str parseToml build content = .error (.PolicyLoad e)) := by
  refine ⟨?_, ?_, ?_⟩
  · intro ⟨t, eb, ht, hb⟩
    cases hca : checkActions name config.actions with
    | error e =>
      obtain ⟨an, hshape⟩ := checkActions_error_shape name config.actions e hca
      subst hshape
      refine ⟨emptyPatternsMsg name an, ?_⟩
      simp only [compile_tool, hca]
    | ok u =>
      obtain ⟨e, hct⟩ := compileTiers_error_of_build build name config.actions t eb
        descTiers (tier_mem_descTiers t) ht hb
      obtain ⟨t', msg, _, hshape⟩ :=
        compileTiers_error_shape build name config.actions descTiers e hct
      subst hshape
      refine ⟨regexErrMsg name t' msg, ?_⟩
      cases u
      simp only [compile_tool, hca, hct]
  · intro e hc hall
    have hca : checkActions name config.actions = .ok () :=
      checkActions_ok_of name config.actions hall
    simp only [compile_tool, hca] at hc
    cases hct : compileTiers build name config.actions descTiers with
    | error e' =>
      rw [hct] at hc
      injection hc with hc
      subst hc
      obtain ⟨t, msg, _, hshape⟩ :=
        compileTiers_error_shape build name config.actions descTiers e' hct
      exact ⟨t, msg, hshape⟩
    | ok ts => rw [hct] at hc; cases hc

  · intro parseToml content e hp
    simp only [Policy.from_str, tomlFromStr, hp]

/-- C8: a policy document in which some action declares an empty pattern
list fails tool compilation with a PolicyValidation error, and consequently
every CompiledTier of a successfully compiled tool carries a non-empty
pattern set. -/
theorem c8_empty_pattern_list (build : RegexBuild) (name : String)
    (config : ToolConfig) :
    ((∃ a ∈ config.actions, a.2.patterns = []) →
      ∃ msg, compile_tool build name config = .error (.PolicyValidation msg)) ∧
    (∀ tool, compile_tool build name config = .ok tool →
      ∀ ct ∈ tool.tiers, ct.patterns.patterns ≠ []) := by
  constructor
  · intro hex
    obtain ⟨an, hca⟩ := checkActions_error_of_empty name config.actions hex
    refine ⟨emptyPatternsMsg name an, ?_⟩
    simp only [compile_tool, hca]
  · intro tool hc ct hct
    unfold compile_tool at hc
    cases hca : checkActions name config.actions with
    | error e => rw [hca] at hc; cases hc
    | ok u =>
      rw [hca] at hc
      cases hcts : compileTiers build name config.actions descTiers with
      | error e => rw [hcts] at hc; cases hc
      | ok ts =>
        rw [hcts] at hc
        injection hc with hc
        subst hc
        have hall := checkActions_all_ne name config.actions u hca
        obtain ⟨hpat, htier⟩ :=
          (compileTiers_ok_spec build name config.actions descTiers ts hcts).2 ct hct
        rw [hpat]
        exact tierPatterns_ne_nil ct.tier config.actions hall htier

/-! ### Deserialization lemmas (unknown keys) -/

/-- A successful `checkKeys` pass means every key is declared. -/
theorem checkKeys_ok (allowed : List String) (entries : List (String × Toml))
    (u : Unit) (h : checkKeys allowed entries = .ok u) :
    keysAllowed allowed entries = true := by
  unfold checkKeys at h
  cases hf : entries.find? (fun kv => !(allowed.contains kv.1)) with
  | some kv => rw [hf] at h; cases h
  | none =>
    rw [List.find?_eq_none] at hf
    simp only [keysAllowed, List.all_eq_true]
    intro kv hkv
    have hk := hf kv hkv
    simpa using hk

/-- A successful `mapE` run means every element deserialized. -/
theorem mapE_ok_forall {ε α β : Type} (f : α → Except ε β) :
    ∀ (l : List α) (ys : List β), mapE f l = .ok ys →
    ∀ x ∈ l, ∃ y, f x = .ok y := by
  intro l
  induction l with
  | nil => intro ys _ x hx; cases hx
  | cons a rest ih =>
    intro ys h x hx
    simp only [mapE] at h
    cases hf : f a with
    | error e => rw [hf] at h; cases h
    | ok y =>
      rw [hf] at h
      cases hr : mapE f rest with
      | error e => rw [hr] at h; cases h
      | ok ys' =>
        cases List.mem_cons.mp hx with
        | inl hh => subst hh; exact ⟨y, hf⟩
        | inr hh => exact ih ys' hr x hh

/-- A successfully deserialized action entry has no unknown keys. -/
theorem actionFromToml_keys (doc : Toml) (a : ActionConfig)
    (h : actionFromToml doc = .ok a) : actionKeysOk doc = true := by
  cases doc with
  | table entries =>
    simp only [actionFromToml] at h
    cases hck : checkKeys ["tier", "patterns"] entries with
    | error e => rw [hck] at h; cases h
    | ok u =>
      simp only [actionKeysOk]
      exact checkKeys_ok _ _ u hck
  | str s => simp [actionFromToml] at h
  | bool b => simp [actionFromToml] at h
  | arr xs => simp [actionFromToml] at h

/-- A successfully deserialized tool entry has no unknown keys, and neither
does any of its action entries. -/
theorem toolFromToml_keys (doc : Toml) (c : ToolConfig)
    (h : toolFromToml doc = .ok c) : toolKeysOk doc = true := by
  cases doc with
  | str s => simp [toolFromToml] at h
  | bool b => simp [toolFromToml] at h
  | arr xs => simp [toolFromToml] at h
  | table entries =>
    simp only [toolFromToml] at h
    cases hck : checkKeys ["enabled", "actions"] entries with
    | error e => simp only [hck] at h; cases h
    | ok u =>
      simp only [hck] at h
      have hka := checkKeys_ok _ _ u hck
      simp only [toolKeysOk, hka, Bool.true_and]
      cases hle : lookupKey entries "enabled" with
      | none => simp only [hle] at h; cases h
      | some ev =>
        simp only [hle] at h
        cases ev with
        | str s => simp at h
        | arr xs => simp at h
        | table ts => simp at h
        | bool b =>
          cases hla : lookupKey entries "actions" with
          | none => rfl
          | some av =>
            cases av with
            | str s => rfl
            | bool b' => rfl
            | arr xs => rfl
            | table as =>
              show (as.all fun kv => actionKeysOk kv.2) = true
              cases hm : mapE (fun kv : String × Toml =>
                  match actionFromToml kv.2 with
                  | .error e => .error e
                  | .ok a => .ok (kv.1, a)) as with
              | error e => simp only [hla, hm] at h; cases h
              | ok acts =>
                rw [List.all_eq_true]
                intro kv hkv
                obtain ⟨y, hy⟩ := mapE_ok_forall _ as acts hm kv hkv
                cases haf : actionFromToml kv.2 with
                | error e => simp only [haf] at hy; cases hy
                | ok a => exact actionFromToml_keys kv.2 a haf

/-- A successfully deserialized policy document has no unknown keys at any
level. -/
theorem policyFileFromToml_keys (doc : Toml) (f : PolicyFile)
    (h : policyFileFromToml doc = .ok f) : docKeysOk doc = true := by
  cases doc with
  | str s => simp [policyFileFromToml] at h
  | bool b => simp [policyFileFromToml] at h
  | arr xs => simp [policyFileFromToml] at h
  | table entries =>
    simp only [policyFileFromToml] at h
    cases hck : checkKeys ["tools"] entries with
    | error e => simp only [hck] at h; cases h
    | ok u =>
      simp only [hck] at h
      have hka := checkKeys_ok _ _ u hck
      simp only [docKeysOk, hka, Bool.true_and]
      cases hlt : lookupKey entries "tools" with
      | none => rfl
      | some tv =>
        cases tv with
        | str s => rfl
        | bool b => rfl
        | arr xs => rfl
        | table ts =>
          show (ts.all fun kv => toolKeysOk kv.2) = true
          cases hm : mapE (fun kv : String × Toml =>
              match toolFromToml kv.2 with
              | .error e => .error e
              | .ok c => .ok (kv.1, c)) ts with
          | error e => simp only [hlt, hm] at h; cases h
          | ok tools =>
            rw [List.all_eq_true]
            intro kv hkv
            obtain ⟨y, hy⟩ := mapE_ok_forall _ ts tools hm kv hkv
            cases htf : toolFromToml kv.2 with
            | error e => simp only [htf] at hy; cases hy
            | ok c => exact toolFromToml_keys kv.2 c htf

/-- C9: a policy document carrying a configuration key not defined by the
schema — at top level, in a tool entry, or in an action entry (that is,
`docKeysOk` is false) — fails `Policy.from_str` with a PolicyLoad error;
unknown keys are never silently ignored. -/
theorem c9_unknown_key_load_error (parseToml : String → Except String Toml)
    (build : RegexBuild) (content : String) (doc : Toml)
    (hp : parseToml content = .ok doc)
    (hbad : docKeysOk doc = false) :
    ∃ msg, Policy.from_str parseToml build content = .error (.PolicyLoad msg) := by
  cases hf : policyFileFromToml doc with
  | ok file =>
    have hok := policyFileFromToml_keys doc file hf
    rw [hok] at hbad
    cases hbad
  | error e =>
    refine ⟨e, ?_⟩
    simp [Policy.from_str, tomlFromStr, hp, hf]

/-- C4 counterexample: `Policy.from_str` performs no size check. A valid
document of 65537 bytes — blank lines only, which the toml syntax parser
maps to the empty table — is parsed into a policy rather than rejected,
refuting the claim that every input over 64 KiB yields an error. -/
theorem c4_from_str_no_size_check :
    bigContent.length > 64 * 1024 ∧
    Policy.from_str (fun _ => .ok (.table [])) buildW bigContent = .ok ⟨[]⟩ := by
  constructor
  · have h1 : bigContent.length = 65537 := by
      simp only [bigContent, String.length, List.length_replicate]
    rw [h1]
    norm_num
  · rfl

/-- C4 (amended): the 64 KiB cap is enforced by `Policy.load`, which checks
the size reported by the file metadata and rejects oversized files with a
PolicyLoad error before reading or parsing any content; `Policy.from_str`
itself imposes no size bound. -/
theorem c4_load_size_cap (parseToml : String → Except String Toml)
    (build : RegexBuild) (len : Nat) (content : Option String)
    (h : len > MAX_POLICY_FILE_SIZE) :
    Policy.load parseToml build (some len) content =
      .error (.PolicyLoad
        ("policy file exceeds " ++ toString MAX_POLICY_FILE_SIZE ++ " byte limit")) := by
  simp [Policy.load, h]

/-! ### Witnesses instantiating the conditional theorems -/

/-- Witness for C1: `configW` compiled by `buildW` gives a tool whose Observe
and Commit tiers both match the command, and the reported tier is Commit. -/
theorem c1_match_tier_max_witness :
    (toolW.match_tier "sudo ls" = none ↔
      ∀ ct ∈ toolW.tiers, ¬ct.patterns.isMatch "sudo ls" = true) ∧
    ∀ t, toolW.match_tier "sudo ls" = some t →
      (∃ ct ∈ toolW.tiers, ct.tier = t ∧ ct.patterns.isMatch "sudo ls" = true) ∧
      ∀ ct ∈ toolW.tiers, ct.patterns.isMatch "sudo ls" = true → ct.tier ≤ t :=
  c1_match_tier_max buildW "bash" configW toolW "sudo ls" rfl

/-- Witness for C2 at a concrete invocation whose command matches the Commit
tier of `toolW`. -/
theorem c2_commit_escalates_witness :
    (toolW.match_tier "sudo ls" = some Tier.Commit →
      (evaluate ⟨"bash", "execute", .obj [("command", .str "sudo ls")]⟩ polW).2 =
        Decision.Escalate) ∧
    ∀ t, t < Tier.Commit → toolW.match_tier "sudo ls" = some t →
      (evaluate ⟨"bash", "execute", .obj [("command", .str "sudo ls")]⟩ polW).2 =
        Decision.Allow ⟨t⟩ :=
  c2_commit_escalates ⟨"bash", "execute", .obj [("command", .str "sudo ls")]⟩ polW
    "sudo ls" toolW rfl rfl rfl

/-- Witness for C5 at a concrete invocation and policy. -/
theorem c5_deterministic_witness :
    evaluate ⟨"bash", "execute", .obj [("command", .str "sudo ls")]⟩ polW =
      evaluate ⟨"bash", "execute", .obj [("command", .str "sudo ls")]⟩ polW :=
  c5_deterministic _ _ polW rfl rfl rfl

/-- Witness for C10: two invocations differing only in action name. -/
theorem c10_action_independent_witness :
    (evaluate ⟨"bash", "read_files", .obj [("command", .str "sudo ls")]⟩ polW).2 =
    (evaluate ⟨"bash", "write_files", .obj [("command", .str "sudo ls")]⟩ polW).2 :=
  c10_action_independent _ _ polW rfl rfl

/-- Witness for C7: `buildBad` fails on the pattern list of configBad's
Observe tier, so compilation fails with a PolicyValidation error. -/
theorem c7_regex_error_validation_witness :
    ∃ msg, compile_tool buildBad "bash" configBad = .error (.PolicyValidation msg) :=
  (c7_regex_error_validation buildBad "bash" configBad).1
    ⟨Tier.Observe, "regex parse error", rfl, rfl⟩

/-- Witness for C8: configEmpty declares an action with an empty pattern
list, so compilation fails with a PolicyValidation error. -/
theorem c8_empty_pattern_list_witness :
    ∃ msg, compile_tool buildW "bash" configEmpty = .error (.PolicyValidation msg) :=
  (c8_empty_pattern_list buildW "bash" configEmpty).1
    ⟨("read", ⟨.Observe, []⟩), by simp [configEmpty], rfl⟩

/-- Witness for C9: a document whose top-level table has the unknown key
`toolz` fails parsing with a PolicyLoad error. -/
theorem c9_unknown_key_load_error_witness :
    ∃ msg, Policy.from_str (fun _ => .ok docBadKey) buildW "x" =
      .error (.PolicyLoad msg) :=
  c9_unknown_key_load_error (fun _ => .ok docBadKey) buildW "x" docBadKey rfl rfl

/-- Witness for the amended C4: a 65537-byte file is rejected by `load`
before its content is read. -/
theorem c4_load_size_cap_witness :
    Policy.load (fun _ => .ok (.table [])) buildW (some 65537) none =
      .error (.PolicyLoad
        ("policy file exceeds " ++ toString MAX_POLICY_FILE_SIZE ++ " byte limit")) :=
  c4_load_size_cap (fun _ => .ok (.table [])) buildW 65537 none (by decide)

end Cherub
